import Mathlib

/-!
# Verification of the golang-geo library against its specification

This file shallowly embeds the two components of the library — the `Point`
type (spherical-trigonometry operations and binary/JSON codecs, from
`point.go`) and the `Polygon` type (ray-casting containment, from
`polygon.go`) — and proves or refutes the frozen claims about them.

Modelling conventions:

* The binary codec works on IEEE-754 bit patterns.  A `float64` is modelled
  by its 64-bit pattern, a `Nat` below `2 ^ 64`; a `[]byte` is a `List Nat`
  of byte values.  Bit-for-bit equality of floats is equality of patterns,
  which covers non-finite values as well.
* The spherical-trigonometry operations are modelled over the real numbers
  (the conventional exact-arithmetic idealization of `float64`): `math.Sin`
  becomes `Real.sin`, `math.Asin` becomes `Real.arcsin`, `math.Atan2 y x`
  becomes `Complex.arg (x + y*I)` (range `(-π, π]`, matching `atan2`), and
  `math.Mod` becomes truncated-division remainder with the sign of the
  dividend, exactly as Go documents it.  Rounding and signed zeros are
  outside this model.
* The polygon component only compares and does field arithmetic on
  coordinates, so it is modelled executably over `ℚ`; the claims about it
  are control-flow claims that do not depend on rounding.
* The JSON text layer is modelled at the value level: an input byte string
  is abstracted as `Option Json` — `none` for text that is not valid JSON,
  `some v` for text whose (first) JSON value is `v`.  The semantics of Go's
  `encoding/json` decoding into `map[string]float64` is embedded from its
  documented behavior: a top-level `null` is a no-op, an object requires
  every member value to be a number or `null` (`null` leaves the zero value
  `0`), any other shape is a type error, and later duplicate keys win.
-/

/-! ## Binary codec (`MarshalBinary` / `UnmarshalBinary`)

`PointBits` is `Point` viewed through the IEEE-754 bit patterns of its two
`float64` fields, which is the only aspect the binary codec touches:
`binary.Write(buf, binary.LittleEndian, f)` writes the 8 bytes of
`math.Float64bits f` least-significant first, and `binary.Read` reads them
back. -/

/-- A `Point` as the binary codec sees it: the 64-bit IEEE-754 patterns of
`Lat` and `Lon` (each a `Nat` below `2 ^ 64`). -/
structure PointBits where
  Lat : Nat
  Lon : Nat
deriving DecidableEq, Repr

/-- The `n` little-endian base-256 digits of `x`: the layout produced by
`binary.Write` with `binary.LittleEndian` for an `n`-byte value. -/
def toBytesLE : Nat → Nat → List Nat
  | 0, _ => []
  | n + 1, x => x % 256 :: toBytesLE n (x / 256)

/-- The value of a little-endian byte string (inverse of `toBytesLE`). -/
def fromBytesLE : List Nat → Nat
  | [] => 0
  | b :: bs => b + 256 * fromBytesLE bs

/-- Go `MarshalBinary`: write the 8 little-endian bytes of `Lat`, then those of
`Lon`.  In Go the two `binary.Write` calls target a `bytes.Buffer` and can
never fail for a `float64`, so the error branches are dead and the result is
always the 16-byte payload with a `nil` error. -/
def PointBits.MarshalBinary (p : PointBits) : List Nat :=
  toBytesLE 8 p.Lat ++ toBytesLE 8 p.Lon

/-- One `binary.Read(buf, binary.LittleEndian, &f)` step on a `float64`
target: consume 8 bytes from the front of the stream, or fail (`io.EOF` /
`io.ErrUnexpectedEOF`) if fewer than 8 remain. -/
def readF64LE (data : List Nat) : Option (Nat × List Nat) :=
  if data.length < 8 then none
  else some (fromBytesLE (data.take 8), data.drop 8)

/-- Go `UnmarshalBinary` on receiver `p`: read `lat`, then `lng`, into locals;
only after both reads succeed are the receiver's fields assigned.  The
result pairs the error (`some msg` models a non-nil `error`) with the
receiver's state after the call. -/
def PointBits.UnmarshalBinaryInto (p : PointBits) (data : List Nat) :
    Option String × PointBits :=
  match readF64LE data with
  | none => (some "binary.Read failed", p)
  | some (lat, rest) =>
    match readF64LE rest with
    | none => (some "binary.Read failed", p)
    | some (lng, _) => (none, { Lat := lat, Lon := lng })

theorem toBytesLE_length (n x : Nat) : (toBytesLE n x).length = n := by
  induction n generalizing x with
  | zero => rfl
  | succ n ih => simp [toBytesLE, ih]

theorem fromBytesLE_toBytesLE (n x : Nat) (h : x < 256 ^ n) :
    fromBytesLE (toBytesLE n x) = x := by
  induction n generalizing x with
  | zero =>
    have : x = 0 := by simpa using h
    simp [this, toBytesLE, fromBytesLE]
  | succ n ih =>
    have hx : x / 256 < 256 ^ n := by
      rw [Nat.div_lt_iff_lt_mul (by norm_num)]
      calc x < 256 ^ (n + 1) := h
        _ = 256 ^ n * 256 := by rw [pow_succ]
    simp only [toBytesLE, fromBytesLE, ih _ hx]
    exact Nat.mod_add_div x 256

theorem readF64LE_append (a rest : List Nat) (h : a.length = 8) :
    readF64LE (a ++ rest) = some (fromBytesLE a, rest) := by
  unfold readF64LE
  rw [if_neg (by simp [h])]
  rw [← h, List.take_left, List.drop_left]

/-- C3: for every receiver state and every pair of 64-bit patterns,
`MarshalBinary` succeeds (it always does) and `UnmarshalBinary` applied to
its output succeeds and reproduces the `Lat` and `Lon` patterns bit for bit
— the round-trip is exact, non-finite values included, since it acts on raw
bit patterns. -/
theorem marshal_unmarshal_binary_roundtrip (p0 : PointBits) (lat lon : Nat)
    (hlat : lat < 2 ^ 64) (hlon : lon < 2 ^ 64) :
    PointBits.UnmarshalBinaryInto p0 (PointBits.MarshalBinary ⟨lat, lon⟩) =
      (none, ⟨lat, lon⟩) := by
  have h256 : (256 : Nat) ^ 8 = 2 ^ 64 := by norm_num
  have e1 : readF64LE (toBytesLE 8 lat ++ toBytesLE 8 lon) =
      some (lat, toBytesLE 8 lon) := by
    rw [readF64LE_append _ _ (toBytesLE_length 8 lat),
      fromBytesLE_toBytesLE 8 lat (by rw [h256]; exact hlat)]
  have e2 : readF64LE (toBytesLE 8 lon) = some (lon, []) := by
    have := readF64LE_append (toBytesLE 8 lon) [] (toBytesLE_length 8 lon)
    rw [List.append_nil] at this
    rw [this, fromBytesLE_toBytesLE 8 lon (by rw [h256]; exact hlon)]
  simp [PointBits.UnmarshalBinaryInto, PointBits.MarshalBinary, e1, e2]

theorem marshal_unmarshal_binary_roundtrip_witness :
    PointBits.UnmarshalBinaryInto ⟨0, 0⟩ (PointBits.MarshalBinary ⟨1, 2⟩) =
      (none, ⟨1, 2⟩) :=
  marshal_unmarshal_binary_roundtrip ⟨0, 0⟩ 1 2 (by norm_num) (by norm_num)

/-- C4: `UnmarshalBinary` fails exactly on inputs shorter than 16 bytes;
on an input of 16 or more bytes it succeeds, decoding `Lat` from bytes 0–7
and `Lon` from bytes 8–15 as little-endian values and ignoring any trailing
bytes (the result depends only on the first 16 bytes). -/
theorem unmarshal_binary_err_iff_short (p : PointBits) (data : List Nat) :
    ((PointBits.UnmarshalBinaryInto p data).1.isSome = true ↔
      data.length < 16) ∧
    (16 ≤ data.length →
      PointBits.UnmarshalBinaryInto p data =
        (none, ⟨fromBytesLE (data.take 8), fromBytesLE ((data.drop 8).take 8)⟩)) := by
  by_cases h8 : data.length < 8
  · have e : readF64LE data = none := by unfold readF64LE; exact if_pos h8
    refine ⟨?_, fun h16 => absurd h16 (by omega)⟩
    simp only [PointBits.UnmarshalBinaryInto, e, Option.isSome_some]
    simp only [true_iff]
    omega
  · have e : readF64LE data = some (fromBytesLE (data.take 8), data.drop 8) := by
      unfold readF64LE; exact if_neg h8
    by_cases h16 : data.length < 16
    · have e2 : readF64LE (data.drop 8) = none := by
        unfold readF64LE
        rw [if_pos (by simp only [List.length_drop]; omega)]
      refine ⟨?_, fun h => absurd h (by omega)⟩
      simp only [PointBits.UnmarshalBinaryInto, e, e2, Option.isSome_some]
      simp only [true_iff]
      exact h16
    · have e2 : readF64LE (data.drop 8) =
          some (fromBytesLE ((data.drop 8).take 8), (data.drop 8).drop 8) := by
        unfold readF64LE
        rw [if_neg (by simp only [List.length_drop]; omega)]
      refine ⟨?_, fun _ => ?_⟩
      · simp only [PointBits.UnmarshalBinaryInto, e, e2, Option.isSome_none]
        exact iff_of_false (by simp) h16
      · simp only [PointBits.UnmarshalBinaryInto, e, e2]

theorem unmarshal_binary_err_iff_short_witness :
    PointBits.UnmarshalBinaryInto ⟨0, 0⟩ (List.replicate 17 3) =
      (none, ⟨fromBytesLE ((List.replicate 17 3).take 8),
              fromBytesLE (((List.replicate 17 3).drop 8).take 8)⟩) :=
  (unmarshal_binary_err_iff_short ⟨0, 0⟩ (List.replicate 17 3)).2 (by decide)

/-- C9: on a failed decode the receiver is untouched — both `binary.Read`
calls target locals, and the fields are assigned only after both succeed,
so no partial write is committed. -/
theorem unmarshal_binary_no_partial_write (p : PointBits) (data : List Nat)
    (h : (PointBits.UnmarshalBinaryInto p data).1.isSome = true) :
    (PointBits.UnmarshalBinaryInto p data).2 = p := by
  unfold PointBits.UnmarshalBinaryInto at *
  cases hr : readF64LE data with
  | none => simp [hr]
  | some v =>
    cases hr2 : readF64LE v.2 with
    | none => simp [hr, hr2]
    | some w => simp [hr, hr2] at h

theorem unmarshal_binary_no_partial_write_witness :
    (PointBits.UnmarshalBinaryInto ⟨5, 7⟩ [1, 2, 3]).2 = ⟨5, 7⟩ :=
  unmarshal_binary_no_partial_write ⟨5, 7⟩ [1, 2, 3] (by decide)

/-! ## Polygon (`polygon.go`)

The polygon component only compares coordinates and does field arithmetic
on them, so `Point` is modelled here as `QPoint` with exact rational
coordinates.  Note that in this exact model division by zero yields `0`
where IEEE arithmetic would yield `±∞`/`NaN`; the claims proved below do
not depend on the value of any division with zero denominator (see the
horizontal-edge theorem). -/

/-- A `Point` as the polygon component sees it: two coordinates that are
only compared, subtracted, multiplied and divided. -/
structure QPoint where
  Lat : ℚ
  Lon : ℚ
deriving DecidableEq, Repr

/-- Go `PNPoly(p, a, b)` — the ray-cast test of the edge `(a, b)` against the
query point `p`, exactly the expression in `polygon.go`. -/
def PNPoly (p a b : QPoint) : Bool :=
  (decide (a.Lon > p.Lon) != decide (b.Lon > p.Lon)) &&
    decide (p.Lat < (b.Lat - a.Lat) * (p.Lon - a.Lon) / (b.Lon - a.Lon) + a.Lat)

/-- A `Polygon` is carved out of a 2D plane by its ordered list of points. -/
structure Polygon where
  points : List QPoint

/-- Go `IsClosed`: false when fewer than 3 points, true otherwise. -/
def Polygon.IsClosed (poly : Polygon) : Bool :=
  if poly.points.length < 3 then false else true

/-- Go `Contains`: false if not closed; otherwise start from the edge
(last point, first point) and toggle through the edges
`(points[i-1], points[i])` for `i` in `[1, len)`.  The `getLastD`/`headD`
defaults are irrelevant: the closed branch runs only on lists of length at
least 3. -/
def Polygon.Contains (poly : Polygon) (point : QPoint) : Bool :=
  if !poly.IsClosed then false
  else
    (poly.points.zip poly.points.tail).foldl
      (fun c e => if PNPoly point e.1 e.2 then !c else c)
      (PNPoly point (poly.points.getLastD ⟨0, 0⟩) (poly.points.headD ⟨0, 0⟩))

/-- The edges of the implicit closed loop, in the claim's words: the edge
(last point, first point) plus each consecutive pair. -/
def closedLoopEdges (pts : List QPoint) : List (QPoint × QPoint) :=
  (pts.getLastD ⟨0, 0⟩, pts.headD ⟨0, 0⟩) :: pts.zip pts.tail

/-- The claim's version of containment: the even-odd parity (iterated XOR)
of the edge test over every edge of the implicit closed loop. -/
def containsParity (pts : List QPoint) (q : QPoint) : Bool :=
  (closedLoopEdges pts).foldr (fun e acc => Bool.xor (PNPoly q e.1 e.2) acc) false

theorem foldl_toggle_eq_xor (f : QPoint × QPoint → Bool)
    (l : List (QPoint × QPoint)) (b : Bool) :
    l.foldl (fun c e => if f e then !c else c) b =
      Bool.xor b (l.foldr (fun e acc => Bool.xor (f e) acc) false) := by
  induction l generalizing b with
  | nil => simp
  | cons e l ih =>
    simp only [List.foldl_cons, List.foldr_cons, ih]
    cases f e <;> cases b <;> simp

/-- C1: `Contains` is false on polygons with fewer than 3 points, and on
polygons with at least 3 points it equals the even-odd parity of the edge
test over the closed loop's edges — one equation covering both cases. -/
theorem contains_eq_closed_loop_parity (poly : Polygon) (q : QPoint) :
    poly.Contains q =
      (decide (3 ≤ poly.points.length) && containsParity poly.points q) := by
  unfold Polygon.Contains Polygon.IsClosed
  by_cases h : poly.points.length < 3
  · have h3 : ¬ 3 ≤ poly.points.length := by omega
    simp [h, h3]
  · have h3 : 3 ≤ poly.points.length := by omega
    rw [foldl_toggle_eq_xor]
    simp [h, h3, containsParity, closedLoopEdges]

/-- C10: on a horizontal edge (`a.Lon = b.Lon`) the first conjunct of the
short-circuit `&&` is false, so `PNPoly` returns false and (in Go) the
division by the zero denominator `b.Lon - a.Lon` in the second conjunct is
never evaluated. -/
theorem pnpoly_horizontal_edge_false (p a b : QPoint) (h : a.Lon = b.Lon) :
    PNPoly p a b = false := by
  unfold PNPoly
  rw [h]
  simp

theorem pnpoly_horizontal_edge_false_witness :
    PNPoly ⟨0, 0⟩ ⟨0, 1⟩ ⟨5, 1⟩ = false :=
  pnpoly_horizontal_edge_false ⟨0, 0⟩ ⟨0, 1⟩ ⟨5, 1⟩ rfl

/-! ## JSON encoder (`MarshalJSON`)

`MarshalJSON` is `fmt.Sprintf` on a fixed format string; the `%v`
rendering of the two `float64` fields is abstracted as the already-rendered
decimal strings `latS` and `lonS` (for `Point(40.7486, -73.9864)` the `%v`
verb renders `40.7486` and `-73.9864`).  The error result is always `nil`
in the Go code and is omitted.  Note the format string in `point.go` is
literally `{"lat":%v, "lon":%v}` — with a space after the comma. -/

/-- The byte string produced by `MarshalJSON`, as a function of the
rendered field values. -/
def marshalJSONText (latS lonS : String) : String :=
  "\x7b\"lat\":" ++ latS ++ ", \"lon\":" ++ lonS ++ "\x7d"

/-- C2 counterexample: on `Point(40.7486, -73.9864)` the encoder does NOT
produce the whitespace-free form the claim states — the format string puts
a space after the comma.  (The repository's `TestMarshalJSON` still passes
in Go because it goes through `json.Marshal`, which compacts the
marshaler's output.) -/
theorem marshalJSON_not_compact :
    marshalJSONText "40.7486" "-73.9864" ≠
      "\x7b\"lat\":40.7486,\"lon\":-73.9864\x7d" := by
  decide

/-- C2 amended: `MarshalJSON` succeeds and returns exactly
`{"lat":<Lat>, "lon":<Lon>}` — with a single space after the comma, per the
literal format string; concretely, `Point(40.7486, -73.9864)` marshals to
`{"lat":40.7486, "lon":-73.9864}`. -/
theorem marshalJSON_format :
    marshalJSONText "40.7486" "-73.9864" =
      "\x7b\"lat\":40.7486, \"lon\":-73.9864\x7d" := by
  rfl

/-! ## JSON decoder (`UnmarshalJSON`)

`UnmarshalJSON` feeds the input to `json.NewDecoder(...).Decode(&values)`
with `values : map[string]float64`, then builds the point from
`values["lat"]` and `values["lon"]` (a Go map read returns the zero value
`0` for a missing key).  The byte-level input is abstracted as
`Option Json`: `none` models text that is not valid JSON, `some v` models
text whose first JSON value is `v`.  Numbers are modelled as exact
rationals.  Decoding into `map[string]float64` follows `encoding/json`:
a top-level `null` is a no-op (the map stays empty), an object member whose
value is a number stores that number, a `null` member value leaves the zero
value `0`, any other member value (or any other top-level value) is a type
error, and with duplicate keys the later member wins. -/

/-- A parsed JSON value. -/
inductive Json where
  | null
  | bool (b : Bool)
  | num (q : ℚ)
  | str (s : String)
  | arr (elems : List Json)
  | obj (members : List (String × Json))

/-- Decode one JSON value into a `float64` map element: a number is itself,
`null` leaves the zero value, anything else is a type error. -/
def decodeFloatVal : Json → Option ℚ
  | .num q => some q
  | .null => some 0
  | _ => none

/-- Decode the members of a JSON object into the map, in order.  Storing a
key appends it; the lookup below takes the last binding, so later duplicate
keys win, as with a Go map. -/
def decodeObjAux : List (String × ℚ) → List (String × Json) → Option (List (String × ℚ))
  | acc, [] => some acc
  | acc, (k, v) :: rest =>
    match decodeFloatVal v with
    | some q => decodeObjAux (acc ++ [(k, q)]) rest
    | none => none

/-- Go `Decode(&values)` for `values : map[string]float64`. -/
def decodeStringFloatMap : Json → Option (List (String × ℚ))
  | .null => some []
  | .obj ms => decodeObjAux [] ms
  | _ => none

/-- Reading `values[k]` from the decoded map: the last binding of `k`, or
the zero value `0` when `k` is absent. -/
def mapGet (m : List (String × ℚ)) (k : String) : ℚ :=
  (m.reverse.lookup k).getD 0

/-- Go `UnmarshalJSON`: decode errors are propagated (`none`); on success the
receiver is overwritten with `NewPoint(values["lat"], values["lon"])`,
returned here as the pair. -/
def UnmarshalJSON (input : Option Json) : Option (ℚ × ℚ) :=
  match input with
  | none => none
  | some v =>
    match decodeStringFloatMap v with
    | none => none
    | some values => some (mapGet values "lat", mapGet values "lon")

/-- C5 counterexample: the claim's error characterization fails in both
directions.  `{"lat":true}` is a valid JSON object, yet decoding errors
(a bool cannot be unmarshalled into `float64`); `null` is valid JSON and
not an object, yet decoding succeeds and yields `(0, 0)`. -/
theorem unmarshalJSON_err_iff_fails :
    UnmarshalJSON (some (.obj [("lat", .bool true)])) = none ∧
      UnmarshalJSON (some .null) = some (0, 0) := by
  constructor <;> rfl

/-- Whether a JSON value can be unmarshalled into a `float64`. -/
def goodFloatVal : Json → Bool
  | .null => true
  | .num _ => true
  | _ => false

/-- The numeric reading of a JSON value (`null` and ill-typed values read
as `0`; under `goodFloatVal` only `null` takes that branch). -/
def valOf : Json → ℚ
  | .num q => q
  | _ => 0

/-- The number carried by the last member of `ms` named `k`, or `0` if no
member is named `k`. -/
def memberNum (ms : List (String × Json)) (k : String) : ℚ :=
  match ms.reverse.lookup k with
  | some v => valOf v
  | none => 0

/-- Modelled from the amended claim's words: decoding succeeds exactly on
`null` (yielding `(0, 0)`) and on objects all of whose member values are
numbers or `null`; the `lat`/`lon` fields come from the last member with
that key (`null` counts as `0`), default to `0` when the key is missing,
and all other keys are ignored. -/
def UnmarshalJSONSpec : Option Json → Option (ℚ × ℚ)
  | none => none
  | some .null => some (0, 0)
  | some (.obj ms) =>
    if ms.all (fun kv => goodFloatVal kv.2) then
      some (memberNum ms "lat", memberNum ms "lon")
    else none
  | some _ => none

theorem lookup_map_valOf (l : List (String × Json)) (k : String) :
    (l.map (fun kv => (kv.1, valOf kv.2))).lookup k = (l.lookup k).map valOf := by
  induction l with
  | nil => rfl
  | cons kv rest ih =>
    obtain ⟨k', v⟩ := kv
    by_cases h : k = k'
    · simp [List.lookup, h]
    · have hbeq : (k == k') = false := by simp [h]
      simp [List.lookup, hbeq, ih]

theorem decodeObjAux_eq (ms : List (String × Json)) (acc : List (String × ℚ)) :
    decodeObjAux acc ms =
      if ms.all (fun kv => goodFloatVal kv.2) then
        some (acc ++ ms.map (fun kv => (kv.1, valOf kv.2)))
      else none := by
  induction ms generalizing acc with
  | nil => simp [decodeObjAux]
  | cons kv rest ih =>
    obtain ⟨k, v⟩ := kv
    cases v <;>
      simp [decodeObjAux, decodeFloatVal, goodFloatVal, valOf, ih,
        List.append_assoc] <;>
      rw [Bool.true_and]

theorem mapGet_map_valOf (ms : List (String × Json)) (k : String) :
    mapGet (ms.map (fun kv => (kv.1, valOf kv.2))) k = memberNum ms k := by
  unfold mapGet memberNum
  rw [← List.map_reverse, lookup_map_valOf]
  cases ms.reverse.lookup k <;> simp [valOf]

/-- C5 amended: `UnmarshalJSON` equals, input for input, the decoder
described by the amended claim: it fails exactly when the input is not
valid JSON (`none`) or its value is neither `null` nor an object all of
whose member values are numbers or `null`; on success a missing `lat` or
`lon` key yields `0` rather than an error, a `null` value (top-level or
member) also yields `0`, and all other keys are ignored. -/
theorem unmarshalJSON_eq_spec (input : Option Json) :
    UnmarshalJSON input = UnmarshalJSONSpec input := by
  match input with
  | none => rfl
  | some .null => rfl
  | some (.bool b) => rfl
  | some (.num q) => rfl
  | some (.str s) => rfl
  | some (.arr es) => rfl
  | some (.obj ms) =>
    simp only [UnmarshalJSON, decodeStringFloatMap, UnmarshalJSONSpec]
    rw [decodeObjAux_eq]
    by_cases h : ms.all (fun kv => goodFloatVal kv.2)
    · simp [h, mapGet_map_valOf]
    · simp [h]

/-! ## Spherical trigonometry (`point.go`), over the real numbers

`Point` here carries its coordinates as real numbers; `math.Atan2` is
`Complex.arg` (range `(-π, π]`), and `math.Mod` is the truncated-division
remainder whose sign follows the dividend, as Go documents. -/

/-- A physical point in geographic notation `[lat, lon]`, coordinates in
degrees (any real values — nothing is validated). -/
structure Point where
  Lat : ℝ
  Lon : ℝ

/-- The constant `EarthRadius = 6371` kilometers. -/
def EarthRadius : ℝ := 6371

/-- Go `math.Atan2 y x`: the argument of the complex number `x + y*I`, in
`(-π, π]`, with `atan2 0 0 = 0`. -/
noncomputable def atan2 (y x : ℝ) : ℝ := Complex.arg ⟨x, y⟩

/-- The truncation used by `math.Mod`: round toward zero. -/
noncomputable def gotrunc (z : ℝ) : ℝ := if 0 ≤ z then ⌊z⌋ else ⌈z⌉

/-- Go `math.Mod x y`: the remainder `x - y * trunc(x / y)`; its magnitude is
less than `|y|` and its sign follows `x`. -/
noncomputable def gomod (x y : ℝ) : ℝ := x - y * gotrunc (x / y)

/-- Go `GreatCircleDistance`: the Haversine distance in kilometers, line for
line from `point.go`. -/
noncomputable def Point.GreatCircleDistance (p p2 : Point) : ℝ :=
  let dLat := (p2.Lat - p.Lat) * (Real.pi / 180)
  let dLon := (p2.Lon - p.Lon) * (Real.pi / 180)
  let lat1 := p.Lat * (Real.pi / 180)
  let lat2 := p2.Lat * (Real.pi / 180)
  let a1 := Real.sin (dLat / 2) * Real.sin (dLat / 2)
  let a2 := Real.sin (dLon / 2) * Real.sin (dLon / 2) * Real.cos lat1 * Real.cos lat2
  let a := a1 + a2
  let c := 2 * atan2 (Real.sqrt a) (Real.sqrt (1 - a))
  EarthRadius * c

/-- Go `BearingTo`: the initial forward azimuth, in degrees, line for line
from `point.go`. -/
noncomputable def Point.BearingTo (p p2 : Point) : ℝ :=
  let dLon := (p2.Lon - p.Lon) * Real.pi / 180
  let lat1 := p.Lat * Real.pi / 180
  let lat2 := p2.Lat * Real.pi / 180
  let y := Real.sin dLon * Real.cos lat2
  let x := Real.cos lat1 * Real.sin lat2 -
    Real.sin lat1 * Real.cos lat2 * Real.cos dLon
  atan2 y x * 180 / Real.pi

/-- Go `PointAtDistanceAndBearing`: transpose `p` by `dist` kilometers along
compass bearing `bearing` degrees, line for line from `point.go` (the Go
code shadows `bearing`, `lat2` and `lng2`; the primed names stand for the
reassigned values). -/
noncomputable def Point.PointAtDistanceAndBearing (p : Point) (dist bearing : ℝ) : Point :=
  let dr := dist / EarthRadius
  let bearing' := bearing * (Real.pi / 180)
  let lat1 := p.Lat * (Real.pi / 180)
  let lng1 := p.Lon * (Real.pi / 180)
  let lat2Part1 := Real.sin lat1 * Real.cos dr
  let lat2Part2 := Real.cos lat1 * Real.sin dr * Real.cos bearing'
  let lat2 := Real.arcsin (lat2Part1 + lat2Part2)
  let lon2Part1 := Real.sin bearing' * Real.sin dr * Real.cos lat1
  let lon2Part2 := Real.cos dr - Real.sin lat1 * Real.sin lat2
  let lng2 := lng1 + atan2 lon2Part1 lon2Part2
  let lng2' := gomod (lng2 + 3 * Real.pi) (2 * Real.pi) - Real.pi
  ⟨lat2 * (180 / Real.pi), lng2' * (180 / Real.pi)⟩

theorem atan2_mem_Ioc (y x : ℝ) :
    -Real.pi < atan2 y x ∧ atan2 y x ≤ Real.pi :=
  Complex.arg_mem_Ioc ⟨x, y⟩

theorem atan2_zero_one : atan2 0 1 = 0 := by
  have h : (⟨1, 0⟩ : ℂ) = 1 := Complex.ext rfl rfl
  rw [atan2, h, Complex.arg_one]

/-- C8: the Haversine distance from any point to itself is exactly 0 (in
the exact-arithmetic model): every difference vanishes, `a = 0`, and
`atan2 0 1 = 0`. -/
theorem greatCircleDistance_self (p : Point) : p.GreatCircleDistance p = 0 := by
  unfold Point.GreatCircleDistance
  simp [atan2_zero_one]

theorem deg_of_Ioc (a : ℝ) (h1 : -Real.pi < a) (h2 : a ≤ Real.pi) :
    -180 < a * 180 / Real.pi ∧ a * 180 / Real.pi ≤ 180 := by
  have hpi : (0:ℝ) < Real.pi := Real.pi_pos
  constructor
  · rw [lt_div_iff hpi]
    nlinarith
  · rw [div_le_iff hpi]
    nlinarith

/-- C6: `BearingTo` always lies in the half-open interval `(-180, 180]`:
it is `atan2` — whose range is `(-π, π]` — scaled by `180/π`. -/
theorem bearingTo_range (p p2 : Point) :
    -180 < p.BearingTo p2 ∧ p.BearingTo p2 ≤ 180 := by
  unfold Point.BearingTo
  exact deg_of_Ioc _ (atan2_mem_Ioc _ _).1 (atan2_mem_Ioc _ _).2

/-- Go `math.Mod` with a nonnegative dividend and positive divisor lands in
`[0, y)` (the truncation is a floor there). -/
theorem gomod_bounds (x y : ℝ) (hx : 0 ≤ x) (hy : 0 < y) :
    0 ≤ gomod x y ∧ gomod x y < y := by
  unfold gomod gotrunc
  rw [if_pos (div_nonneg hx hy.le)]
  constructor
  · have hfl : ((⌊x / y⌋ : ℤ) : ℝ) ≤ x / y := Int.floor_le _
    have h2 : y * ((⌊x / y⌋ : ℤ) : ℝ) ≤ y * (x / y) :=
      mul_le_mul_of_nonneg_left hfl hy.le
    have h3 : y * (x / y) = x := by field_simp
    linarith
  · have hfl : x / y < ((⌊x / y⌋ : ℤ) : ℝ) + 1 := Int.lt_floor_add_one _
    have h2 : x < (((⌊x / y⌋ : ℤ) : ℝ) + 1) * y := (div_lt_iff hy).mp hfl
    nlinarith

/-- The normalization step `mod(L + 3π, 2π) − π`, scaled to degrees, lands
in `[-180, 180)` whenever `L` lies in `(-2π, 2π]` (so that the dividend is
positive). -/
theorem normalize_lon_bounds (L : ℝ) (h1 : -(2 * Real.pi) < L)
    (h2 : L ≤ 2 * Real.pi) :
    -180 ≤ (gomod (L + 3 * Real.pi) (2 * Real.pi) - Real.pi) * (180 / Real.pi) ∧
      (gomod (L + 3 * Real.pi) (2 * Real.pi) - Real.pi) * (180 / Real.pi) < 180 := by
  have hpi : (0:ℝ) < Real.pi := Real.pi_pos
  obtain ⟨g1, g2⟩ :=
    gomod_bounds (L + 3 * Real.pi) (2 * Real.pi) (by linarith) (by linarith)
  have hs : (0:ℝ) < 180 / Real.pi := by positivity
  constructor
  · have hl : -Real.pi ≤ gomod (L + 3 * Real.pi) (2 * Real.pi) - Real.pi := by
      linarith
    have h4 := mul_le_mul_of_nonneg_right hl hs.le
    have h5 : (-Real.pi) * (180 / Real.pi) = -180 := by
      field_simp
      ring
    linarith
  · have hl : gomod (L + 3 * Real.pi) (2 * Real.pi) - Real.pi < Real.pi := by
      linarith
    have h4 := mul_lt_mul_of_pos_right hl hs
    have h5 : Real.pi * (180 / Real.pi) = 180 := by
      field_simp
    linarith

theorem pointAt_core (lon A : ℝ) (h1 : -180 ≤ lon) (h2 : lon ≤ 180)
    (hA1 : -Real.pi < A) (hA2 : A ≤ Real.pi) :
    -180 ≤ (gomod (lon * (Real.pi / 180) + A + 3 * Real.pi) (2 * Real.pi) -
        Real.pi) * (180 / Real.pi) ∧
      (gomod (lon * (Real.pi / 180) + A + 3 * Real.pi) (2 * Real.pi) -
        Real.pi) * (180 / Real.pi) < 180 := by
  have hpi : (0:ℝ) < Real.pi := Real.pi_pos
  have hq : (0:ℝ) ≤ Real.pi / 180 := by positivity
  have hl1 : (-180 : ℝ) * (Real.pi / 180) ≤ lon * (Real.pi / 180) :=
    mul_le_mul_of_nonneg_right h1 hq
  have hl2 : lon * (Real.pi / 180) ≤ (180 : ℝ) * (Real.pi / 180) :=
    mul_le_mul_of_nonneg_right h2 hq
  have e1 : (-180 : ℝ) * (Real.pi / 180) = -Real.pi := by ring
  have e2 : (180 : ℝ) * (Real.pi / 180) = Real.pi := by ring
  exact normalize_lon_bounds _ (by linarith) (by linarith)

/-- C7 amended (the provable part): when the starting longitude lies in the
conventional range `[-180, 180]`, the returned longitude lies in the
half-open interval `[-180, 180)` — closed on the left, open on the right,
the reverse of the claim's `(-180, 180]`. -/
theorem pointAt_lon_in_range (p : Point) (dist bearing : ℝ)
    (h1 : -180 ≤ p.Lon) (h2 : p.Lon ≤ 180) :
    -180 ≤ (p.PointAtDistanceAndBearing dist bearing).Lon ∧
      (p.PointAtDistanceAndBearing dist bearing).Lon < 180 := by
  unfold Point.PointAtDistanceAndBearing
  exact pointAt_core p.Lon _ h1 h2 (atan2_mem_Ioc _ _).1 (atan2_mem_Ioc _ _).2

theorem pointAt_lon_in_range_witness :
    -180 ≤ (Point.PointAtDistanceAndBearing ⟨0, 0⟩ 0 0).Lon ∧
      (Point.PointAtDistanceAndBearing ⟨0, 0⟩ 0 0).Lon < 180 :=
  pointAt_lon_in_range ⟨0, 0⟩ 0 0 (by norm_num) (by norm_num)


/-- C7 counterexample: from `Point(0, -720)` (longitudes are not
validated), distance 0, bearing 0, the returned longitude is exactly
`-360` — outside `(-180, 180]`.  The dividend `lon2 + 3π = -π` is
negative, and `math.Mod` keeps the dividend's sign, so the normalization
`mod(lon2 + 3π, 2π) − π` yields `-2π`, not a value in `(−π, π]`. -/
theorem pointAt_lon_out_of_claimed_range :
    ¬ (-180 < (Point.PointAtDistanceAndBearing ⟨0, -720⟩ 0 0).Lon ∧
        (Point.PointAtDistanceAndBearing ⟨0, -720⟩ 0 0).Lon ≤ 180) := by
  have h2pi : (2 : ℝ) * Real.pi ≠ 0 := by positivity
  have hd : -Real.pi / (2 * Real.pi) = -(1 / 2 : ℝ) := by
    rw [div_eq_iff h2pi]
    ring
  have hc : ⌈(-(1 / 2 : ℝ))⌉ = 0 := by
    rw [Int.ceil_eq_zero_iff, Set.mem_Ioc]
    norm_num
  have hg : gomod (-Real.pi) (2 * Real.pi) = -Real.pi := by
    unfold gomod gotrunc
    rw [hd, if_neg (by norm_num), hc]
    norm_num
  have hlon : (Point.PointAtDistanceAndBearing ⟨0, -720⟩ 0 0).Lon = -360 := by
    unfold Point.PointAtDistanceAndBearing
    simp only [atan2_zero_one, Real.sin_zero, Real.cos_zero, Real.arcsin_zero,
      zero_div, zero_mul, mul_zero, mul_one, one_mul, add_zero, zero_add,
      sub_zero]
    rw [show (-720 : ℝ) * (Real.pi / 180) + 3 * Real.pi = -Real.pi by ring]
    rw [hg]
    field_simp
    ring
  rw [hlon]
  norm_num
